import Mathlib

/-!
Verification of the ArcanaJS data-access layer (shallow embedding).

The embedding covers the relation subsystem (Relation, HasMany, HasOne,
BelongsToMany), the Macroable extension registry, the MongoDB QueryBuilder
extensions (populate / aggregate result remapping), the DatabaseProvider and
migrate-CLI backend selection, and the validation engine database rules
(validateUnique / validateExists).
-/

/-- A JavaScript primitive runtime value. Identifiers in this codebase are
integers or strings; null and undefined are observable (an uninitialized
class field reads as undefined). -/
inductive Value where
  | vNull : Value
  | vUndef : Value
  | vBool : Bool → Value
  | vInt : Int → Value
  | vStr : String → Value
deriving DecidableEq

/-- JavaScript String() coercion on primitive values. -/
def jsString : Value → String
  | Value.vNull => "null"
  | Value.vUndef => "undefined"
  | Value.vBool true => "true"
  | Value.vBool false => "false"
  | Value.vInt n => toString n
  | Value.vStr s => s

/-- JavaScript truthiness of a primitive value. -/
def truthy : Value → Bool
  | Value.vNull => false
  | Value.vUndef => false
  | Value.vBool b => b
  | Value.vInt n => n != 0
  | Value.vStr s => s != ""

/-- JavaScript object property read: the value stored under a key, if any.
Keys are unique in the association lists built by objSet, so first match
suffices. -/
def objGet {α : Type} : List (String × α) → String → Option α
  | [], _ => none
  | (k0, v0) :: rest, k => if k0 == k then some v0 else objGet rest k

/-- JavaScript object property write: update an existing key in place,
otherwise append the new key at the end (JS insertion order). -/
def objSet {α : Type} : List (String × α) → String → α → List (String × α)
  | [], k, v => [(k, v)]
  | (k0, v0) :: rest, k, v =>
      if k0 == k then (k0, v) :: rest else (k0, v0) :: objSet rest k v

theorem objGet_objSet {α : Type} (d : List (String × α)) (k k2 : String) (v : α) :
    objGet (objSet d k v) k2 = if k == k2 then some v else objGet d k2 := by
  induction d with
  | nil =>
      simp only [objSet, objGet]
  | cons p rest ih =>
      obtain ⟨k0, v0⟩ := p
      by_cases h : k0 = k
      · subst h
        by_cases h2 : k0 = k2
        · subst h2
          simp [objSet, objGet]
        · simp [objSet, objGet, h2]
      · by_cases h2 : k0 = k2
        · subst h2
          simp [objSet, objGet, h, Ne.symm h]
        · simp [objSet, objGet, h, h2, ih]

theorem objGet_eq_none_iff {α : Type} (d : List (String × α)) (k : String) :
    objGet d k = none ↔ ∀ p ∈ d, (p.1 == k) = false := by
  induction d with
  | nil => simp [objGet]
  | cons p rest ih =>
      obtain ⟨k0, v0⟩ := p
      by_cases h : k0 = k
      · subst h
        simp [objGet]
      · simp only [objGet, List.mem_cons]
        have hb : (k0 == k) = false := by simp [h]
        rw [hb]
        simp only [Bool.false_eq_true, if_false, ih]
        constructor
        · intro hall p hp
          rcases hp with hp | hp
          · subst hp
            exact hb
          · exact hall p hp
        · intro hall p hp
          exact hall p (Or.inr hp)

mutual

/-- A model instance: an attribute bag plus the cache of resolved relation
results keyed by relation name. Modelled from the spec: the Model class is
not present in the sources, only its callers; the spec describes it as an
attribute bag with a cache of resolved relation results. -/
inductive Model where
  | mk : List (String × Value) → List (String × RelVal) → Model

/-- A cached relation result: a single related model or null (HasOne and
BelongsTo), or a list of related models (HasMany and BelongsToMany). -/
inductive RelVal where
  | one : Option Model → RelVal
  | many : List Model → RelVal

end

def Model.attributes : Model → List (String × Value)
  | Model.mk a _ => a

def Model.relationsCache : Model → List (String × RelVal)
  | Model.mk _ r => r

/-- Modelled from the spec: Model.getAttribute reads the attribute bag; a
missing field reads as undefined. The key is a JS string that can itself be
undefined at runtime, in which case property access coerces it with
String(). -/
def Model.getAttribute (m : Model) (key : Value) : Value :=
  (objGet m.attributes (jsString key)).getD Value.vUndef

/-- Modelled from the spec: Model.setRelation stores a resolved relation
result in the cache of the instance under the relation name. -/
def Model.setRelation (m : Model) (name : String) (v : RelVal) : Model :=
  Model.mk m.attributes (objSet m.relationsCache name v)

/-- The cached relation result stored under a relation name, if any. -/
def Model.getRelation (m : Model) (name : String) : Option RelVal :=
  objGet m.relationsCache name

/-- A filter predicate accumulated by the query builder: column, operator,
value, boolean join. The column is a JS string, observable as undefined when
the caller passes an uninitialized field, so it is carried as a Value. -/
structure WhereClause where
  column : Value
  op : String
  value : Value
  boolJoin : String
deriving DecidableEq

/-- Modelled from the spec: the QueryBuilder class is not present in the
sources, only its callers; the spec describes it as holding a target
table/collection name, an ordered predicate list, and a reference to one
adapter (carried here as an opaque handle). -/
structure QueryBuilder where
  tableName : String
  wheres : List WhereClause
  adapterHandle : Nat

/-- Modelled from the spec: the three-argument where appends one predicate,
joined by AND, at the end of the ordered predicate list. -/
def QueryBuilder.whereOp (q : QueryBuilder) (col : Value) (o : String) (v : Value) : QueryBuilder :=
  { q with wheres := q.wheres ++ [⟨col, o, v, "and"⟩] }

/-- Modelled from the spec: the join-key normalization of the relation
matching step stringifies the key value to guarantee consistent hashing
across numeric and string representations. Relation.normalizeKey is called
from HasMany.match and HasOne.match but its definition is not under the
sources. -/
def normalizeKey (v : Value) : String :=
  jsString v

/-- HasMany relation state: the fields of Relation (query, parent) plus the
key pair of HasMany.ts. The key fields are JS class fields, so they read as
undefined until the subclass constructor body assigns them. -/
structure HasManyRel where
  query : QueryBuilder
  parent : Model
  foreignKey : Value
  localKey : Value

/-- HasMany.addConstraints from HasMany.ts: reads the local key value off
the parent and adds the predicate foreignKey = localValue to the query. -/
def HasManyRel.addConstraints (r : HasManyRel) : HasManyRel :=
  let localValue := r.parent.getAttribute r.localKey
  { r with query := r.query.whereOp r.foreignKey "=" localValue }

/-- new HasMany(query, parent, foreignKey, localKey) with JavaScript
initialization order: the base Relation constructor runs first and calls
this.addConstraints() virtually (Relation.ts line 13); the subclass fields
foreignKey and localKey are assigned only after super() returns, so
addConstraints observes them as undefined. -/
def HasManyRel.construct (query : QueryBuilder) (parent : Model)
    (foreignKey localKey : String) : HasManyRel :=
  let afterSuper := HasManyRel.addConstraints
    { query := query, parent := parent,
      foreignKey := Value.vUndef, localKey := Value.vUndef }
  { afterSuper with foreignKey := Value.vStr foreignKey, localKey := Value.vStr localKey }

/-- One step of the dictionary build in HasMany.match: if the key has no
entry it is initialized to the empty list, then the result is pushed. -/
def dictPush (fk : Value) (d : List (String × List Model)) (result : Model) :
    List (String × List Model) :=
  let key := normalizeKey (result.getAttribute fk)
  match objGet d key with
  | some ms => objSet d key (ms ++ [result])
  | none => objSet d key [result]

/-- HasMany.match from HasMany.ts: build a dictionary keyed by the
normalized foreign-key value of each result, then attach to each parent the
entry under its normalized local-key value, or the empty list. -/
def HasManyRel.matchModels (r : HasManyRel) (models : List Model)
    (results : List Model) (relation : String) : List Model :=
  let dictionary := results.foldl (dictPush r.foreignKey) []
  models.map (fun model =>
    let key := normalizeKey (model.getAttribute r.localKey)
    model.setRelation relation (RelVal.many ((objGet dictionary key).getD [])))

/-- HasOne relation state, mirroring HasOne.ts. -/
structure HasOneRel where
  query : QueryBuilder
  parent : Model
  foreignKey : Value
  localKey : Value

/-- HasOne.addConstraints from HasOne.ts. -/
def HasOneRel.addConstraints (r : HasOneRel) : HasOneRel :=
  let localValue := r.parent.getAttribute r.localKey
  { r with query := r.query.whereOp r.foreignKey "=" localValue }

/-- new HasOne(query, parent, foreignKey, localKey) with JavaScript
initialization order, as for HasMany: addConstraints runs inside super()
before the key fields are assigned. -/
def HasOneRel.construct (query : QueryBuilder) (parent : Model)
    (foreignKey localKey : String) : HasOneRel :=
  let afterSuper := HasOneRel.addConstraints
    { query := query, parent := parent,
      foreignKey := Value.vUndef, localKey := Value.vUndef }
  { afterSuper with foreignKey := Value.vStr foreignKey, localKey := Value.vStr localKey }

/-- One step of the dictionary build in HasOne.match: a plain overwriting
property write, so a later result with the same key wins. -/
def dictPut (fk : Value) (d : List (String × Model)) (result : Model) :
    List (String × Model) :=
  objSet d (normalizeKey (result.getAttribute fk)) result

/-- Modelled from the spec: Relation.getDefaultFor, called by HasOne.match
for a parent with no matching result, is not under the sources; the spec
says singular relations default to null. -/
def getDefaultForModel (_parent : Model) : Option Model :=
  none

/-- HasOne.match from HasOne.ts: build an overwriting dictionary keyed by
the normalized foreign-key value, then attach to each parent the entry
under its normalized local-key value, or the null default. -/
def HasOneRel.matchModels (r : HasOneRel) (models : List Model)
    (results : List Model) (relation : String) : List Model :=
  let dictionary := results.foldl (dictPut r.foreignKey) []
  models.map (fun model =>
    let key := normalizeKey (model.getAttribute r.localKey)
    let related := match objGet dictionary key with
      | some res => some res
      | none => getDefaultForModel model
    model.setRelation relation (RelVal.one related))

/-- BelongsToMany relation state, mirroring BelongsToMany.ts. -/
structure BelongsToManyRel where
  query : QueryBuilder
  parent : Model
  pivotTable : String
  foreignPivotKey : String
  relatedPivotKey : String
  parentKey : String
  relatedKey : String

/-- BelongsToMany.match from BelongsToMany.ts: the body declares an empty
dictionary, never uses it (the pivot mapping is an explicit TODO stub), and
returns the parent models unchanged. -/
def BelongsToManyRel.matchModels (_r : BelongsToManyRel) (models : List Model)
    (_results : List Model) (_relation : String) : List Model :=
  let _dictionary : List (String × List Model) := []
  models

/-- The signature of a function registered on the query builder: it is
called with the builder instance as its receiver plus the argument list. -/
def MacroFn : Type :=
  QueryBuilder → List Value → Value

/-- The static state of the Macroable hierarchy from Macroable.ts. Only the
base class declares the static macros record, so every subclass reads and
writes the one shared object through the prototype chain; the prototype
method installed by the second assignment lives on the receiving class
alone, keyed here by class name. -/
structure MacroState where
  shared : List (String × MacroFn)
  protos : List (String × List (String × MacroFn))

/-- Macroable.macro from Macroable.ts, invoked as C.macro(name, f) on a
subclass C: this.macros[name] = f writes into the shared record, and
this.prototype[name] = f installs f on the prototype of C only. -/
def macroInstall (s : MacroState) (cls : String) (name : String) (f : MacroFn) : MacroState :=
  { shared := objSet s.shared name f,
    protos := objSet s.protos cls (objSet ((objGet s.protos cls).getD []) name f) }

/-- Macroable.hasMacro from Macroable.ts, invoked as C.hasMacro(name) on a
subclass C: it reads this.macros, which resolves through the prototype
chain to the one shared record, so the receiving class is ignored. A stored
function is always truthy. -/
def macroDefined (s : MacroState) (_cls : String) (name : String) : Bool :=
  (objGet s.shared name).isSome

/-- Invoking builder.name(args): property lookup on the instance walks to
the prototype of the class of the builder; the found function is called
with the builder as receiver. -/
def macroInvokeOn (s : MacroState) (cls : String) (b : QueryBuilder)
    (name : String) (args : List Value) : Option Value :=
  (objGet ((objGet s.protos cls).getD []) name).map (fun f => f b args)

/-- A MongoDB document: a JS object of primitive values. -/
def Doc : Type :=
  List (String × Value)

/-- The per-document remapping shared by the populate and aggregate macros
in MongoExtensions.ts: destructure _id out of the document, then rebuild the
object literal with id first, _id second, and the remaining keys spread
after them in order; a spread key equal to an earlier one overwrites its
value in place. -/
def remapDocId (doc : Doc) : Doc :=
  let idv := (objGet doc "_id").getD Value.vUndef
  let rest := doc.filter (fun p => p.1 != "_id")
  rest.foldl (fun o p => objSet o p.1 p.2) [("id", idv), ("_id", idv)]

/-- The result mapping of the populate macro (MongoExtensions.ts): every
document of the aggregation output is remapped unconditionally. -/
def populateMapDoc (doc : Doc) : Doc :=
  remapDocId doc

/-- The result mapping of the aggregate macro (MongoExtensions.ts): a
document is remapped only when doc._id is truthy, otherwise it is returned
unchanged. -/
def aggregateMapDoc (doc : Doc) : Doc :=
  if truthy ((objGet doc "_id").getD Value.vUndef) then remapDocId doc else doc

/-- The list mapping applied by populate to the aggregation results. -/
def populateResults (docs : List Doc) : List Doc :=
  docs.map populateMapDoc

/-- The list mapping applied by aggregate to the aggregation results. -/
def aggregateResults (docs : List Doc) : List Doc :=
  docs.map aggregateMapDoc

/-- The three backends the adapter factory can instantiate. -/
inductive AdapterKind where
  | mysql : AdapterKind
  | mongodb : AdapterKind
  | postgres : AdapterKind
deriving DecidableEq

/-- The adapter-construction switch of DatabaseProvider.register
(DatabaseProvider.ts): mysql, mongodb and postgres map to their adapters;
every other type throws Unsupported DB type. -/
def databaseProviderAdapterFor (t : String) : Except String AdapterKind :=
  if t == "mysql" then Except.ok AdapterKind.mysql
  else if t == "mongodb" then Except.ok AdapterKind.mongodb
  else if t == "postgres" then Except.ok AdapterKind.postgres
  else Except.error ("Unsupported DB type " ++ t)

/-- The adapter selection of the migrate CLI (migrate.ts): postgres and
mysql are accepted; every other type prints Unsupported database type and
exits with an error. -/
def migrateAdapterFor (t : String) : Except String AdapterKind :=
  if t == "postgres" then Except.ok AdapterKind.postgres
  else if t == "mysql" then Except.ok AdapterKind.mysql
  else Except.error ("Unsupported database type: " ++ t)

/-- The database-facing surface the validator uses through the query
builder: the terminal count and exists calls, abstracted as functions of
the target table and the accumulated predicate list. -/
structure ValidatorDb where
  countFn : String → List WhereClause → Nat
  existsFn : String → List WhereClause → Bool

/-- JS String.split with the one-character comma separator, structurally
recursive on the character list: the empty string yields one empty part,
and a trailing comma yields a trailing empty part. -/
def splitCommaChars : List Char → List String
  | [] => [""]
  | c :: cs =>
      match splitCommaChars cs with
      | s :: ss => if c = ',' then "" :: s :: ss else String.mk (c :: s.data) :: ss
      | [] => [String.mk [c]]

/-- JS String(x).split on commas. -/
def splitComma (s : String) : List String :=
  splitCommaChars s.data

/-- Validator.validateUnique from Validator.ts: split the rule parameter on
commas into table, column (defaulting to the field name), ignoreId and
ignoreColumn (defaulting to id); fail the rule when the table part is
empty; otherwise build a query with column = value, add
ignoreColumn != ignoreId when ignoreId is truthy, and succeed exactly when
count() is zero. The two-argument where is equality sugar per the spec. -/
def validateUnique (adapter : Option ValidatorDb) (field : String)
    (value : Value) (param : Value) : Except String Bool :=
  match adapter with
  | none => Except.error "Database adapter not set. Use setDatabaseAdapter() before using unique rule."
  | some a =>
    let parts := splitComma (jsString param)
    let table := (parts.get? 0).getD ""
    let column := (parts.get? 1).getD field
    let ignoreId := parts.get? 2
    let ignoreColumn := (parts.get? 3).getD "id"
    if table == "" then Except.ok false
    else
      let q0 : List WhereClause := [⟨Value.vStr column, "=", value, "and"⟩]
      let q1 := match ignoreId with
        | some s =>
            if s != "" then q0 ++ [⟨Value.vStr ignoreColumn, "!=", Value.vStr s, "and"⟩] else q0
        | none => q0
      Except.ok (a.countFn table q1 == 0)

/-- Validator.validateExists from Validator.ts: split the rule parameter on
commas into table and column (defaulting to id); fail the rule when the
table part is empty; otherwise build a query with column = value and return
exists(). -/
def validateExists (adapter : Option ValidatorDb) (_field : String)
    (value : Value) (param : Value) : Except String Bool :=
  match adapter with
  | none => Except.error "Database adapter not set. Use setDatabaseAdapter() before using exists rule."
  | some a =>
    let parts := splitComma (jsString param)
    let table := (parts.get? 0).getD ""
    let column := (parts.get? 1).getD "id"
    if table == "" then Except.ok false
    else Except.ok (a.existsFn table [⟨Value.vStr column, "=", value, "and"⟩])

theorem objGet_foldl_dictPush (fk : Value) (results : List Model)
    (d : List (String × List Model)) (k : String) :
    objGet (results.foldl (dictPush fk) d) k
      = (results.filter (fun res => normalizeKey (res.getAttribute fk) == k)).foldl
          (fun acc r => some (acc.getD [] ++ [r])) (objGet d k) := by
  induction results generalizing d with
  | nil => simp
  | cons res rs ih =>
      rw [List.foldl_cons, List.filter_cons, ih]
      by_cases h : normalizeKey (res.getAttribute fk) = k
      · have hget : objGet (dictPush fk d res) k = some ((objGet d k).getD [] ++ [res]) := by
          unfold dictPush
          rw [h]
          cases hdk : objGet d k with
          | some ms => simp [hdk, objGet_objSet]
          | none => simp [hdk, objGet_objSet]
        rw [hget]
        simp [h]
      · have hget : objGet (dictPush fk d res) k = objGet d k := by
          unfold dictPush
          cases hdk : objGet d (normalizeKey (res.getAttribute fk)) with
          | some ms => simp [hdk, objGet_objSet, h]
          | none => simp [hdk, objGet_objSet, h]
        rw [hget]
        simp [h]

theorem foldl_pushStep_getD (l : List Model) (init : Option (List Model)) :
    (l.foldl (fun acc r => some (acc.getD [] ++ [r])) init).getD []
      = init.getD [] ++ l := by
  induction l generalizing init with
  | nil => simp
  | cons r rs ih =>
      rw [List.foldl_cons, ih]
      simp

/-- Extensional form of HasMany.match: each parent ends up with exactly the
results whose normalized foreign key equals its normalized local key, in
result order. -/
theorem hasManyMatch_eq (r : HasManyRel) (models results : List Model) (relation : String) :
    r.matchModels models results relation
      = models.map (fun model =>
          model.setRelation relation (RelVal.many (results.filter (fun res =>
            normalizeKey (res.getAttribute r.foreignKey)
              == normalizeKey (model.getAttribute r.localKey))))) := by
  unfold HasManyRel.matchModels
  refine congrArg models.map (funext (fun model => ?_))
  dsimp only
  rw [objGet_foldl_dictPush]
  have hnone : objGet ([] : List (String × List Model))
      (normalizeKey (model.getAttribute r.localKey)) = none := rfl
  rw [hnone, foldl_pushStep_getD]
  simp

theorem objGet_foldl_dictPut (fk : Value) (results : List Model)
    (d : List (String × Model)) (k : String) :
    objGet (results.foldl (dictPut fk) d) k
      = (results.filter (fun res => normalizeKey (res.getAttribute fk) == k)).foldl
          (fun _ r => some r) (objGet d k) := by
  induction results generalizing d with
  | nil => simp
  | cons res rs ih =>
      rw [List.foldl_cons, List.filter_cons, ih]
      by_cases h : normalizeKey (res.getAttribute fk) = k
      · have hget : objGet (dictPut fk d res) k = some res := by
          unfold dictPut
          rw [h, objGet_objSet]
          simp
        rw [hget]
        simp [h]
      · have hget : objGet (dictPut fk d res) k = objGet d k := by
          unfold dictPut
          rw [objGet_objSet]
          simp [h]
        rw [hget]
        simp [h]

theorem foldl_lastStep (l : List Model) (init : Option Model) :
    l.foldl (fun _ r => some r) init
      = match l.getLast? with
        | some x => some x
        | none => init := by
  induction l generalizing init with
  | nil => rfl
  | cons r rs ih =>
      rw [List.foldl_cons, ih]
      cases rs with
      | nil => rfl
      | cons b bs =>
          rw [List.getLast?_cons_cons]
          cases hbs : (b :: bs).getLast? with
          | some x => rfl
          | none =>
              rw [List.getLast?_eq_none_iff] at hbs
              exact absurd hbs (List.cons_ne_nil b bs)

/-- Extensional form of HasOne.match: each parent ends up with the last
result whose normalized foreign key equals its normalized local key, or
null when there is none. -/
theorem hasOneMatch_eq (r : HasOneRel) (models results : List Model) (relation : String) :
    r.matchModels models results relation
      = models.map (fun model =>
          model.setRelation relation (RelVal.one ((results.filter (fun res =>
            normalizeKey (res.getAttribute r.foreignKey)
              == normalizeKey (model.getAttribute r.localKey))).getLast?))) := by
  unfold HasOneRel.matchModels
  refine congrArg models.map (funext (fun model => ?_))
  dsimp only
  rw [objGet_foldl_dictPut]
  have hnone : objGet ([] : List (String × Model))
      (normalizeKey (model.getAttribute r.localKey)) = none := rfl
  rw [hnone, foldl_lastStep]
  cases hlast : (results.filter (fun res =>
      normalizeKey (res.getAttribute r.foreignKey)
        == normalizeKey (model.getAttribute r.localKey))).getLast? with
  | some x => rfl
  | none => rfl

theorem getRelation_setRelation (m : Model) (name : String) (v : RelVal) :
    (m.setRelation name v).getRelation name = some v := by
  cases m with
  | mk a r =>
      simp [Model.setRelation, Model.getRelation, Model.relationsCache, objGet_objSet]

/-- The related list HasMany.match attaches to one parent, read back off
the relation cache of the matched output model. -/
def attachedMany (r : HasManyRel) (model : Model) (results : List Model)
    (relation : String) : List Model :=
  match (r.matchModels [model] results relation).head? with
  | some m =>
      match m.getRelation relation with
      | some (RelVal.many l) => l
      | _ => []
  | none => []

/-- The related model HasOne.match attaches to one parent, read back off
the relation cache of the matched output model. -/
def attachedOne (r : HasOneRel) (model : Model) (results : List Model)
    (relation : String) : Option Model :=
  match (r.matchModels [model] results relation).head? with
  | some m =>
      match m.getRelation relation with
      | some (RelVal.one v) => v
      | _ => none
  | none => none

theorem attachedMany_eq (r : HasManyRel) (model : Model) (results : List Model)
    (relation : String) :
    attachedMany r model results relation
      = results.filter (fun res =>
          normalizeKey (res.getAttribute r.foreignKey)
            == normalizeKey (model.getAttribute r.localKey)) := by
  unfold attachedMany
  rw [hasManyMatch_eq]
  simp [getRelation_setRelation]

theorem attachedOne_eq (r : HasOneRel) (model : Model) (results : List Model)
    (relation : String) :
    attachedOne r model results relation
      = (results.filter (fun res =>
          normalizeKey (res.getAttribute r.foreignKey)
            == normalizeKey (model.getAttribute r.localKey))).getLast? := by
  unfold attachedOne
  rw [hasOneMatch_eq]
  simp [getRelation_setRelation]

/-- C1: for every list of parent models and every list of related results,
the eager-load matching step keys a dictionary by the normalized
foreign-key value of each result and attaches to each parent the dictionary
entry under its normalized local-key value: each parent receives exactly
the results whose normalized foreign key equals its normalized local key
(all of them for HasMany.match, the surviving last write for HasOne.match),
and a parent whose key has no entry receives the empty default, the empty
list for HasMany.match and null for HasOne.match. -/
theorem relation_match_attaches_dictionary_entry
    (hm : HasManyRel) (ho : HasOneRel) (models results : List Model) (relation : String) :
    hm.matchModels models results relation
      = models.map (fun model =>
          model.setRelation relation (RelVal.many (results.filter (fun res =>
            normalizeKey (res.getAttribute hm.foreignKey)
              == normalizeKey (model.getAttribute hm.localKey)))))
    ∧ ho.matchModels models results relation
      = models.map (fun model =>
          model.setRelation relation (RelVal.one ((results.filter (fun res =>
            normalizeKey (res.getAttribute ho.foreignKey)
              == normalizeKey (model.getAttribute ho.localKey))).getLast?))) :=
  ⟨hasManyMatch_eq hm models results relation, hasOneMatch_eq ho models results relation⟩

/-- C2 (code bug): immediately after new HasMany(query, parent, user_id,
id) for a parent whose id attribute is 1, the query holds the predicate
undefined = undefined rather than user_id = 1, because the base Relation
constructor calls addConstraints before the subclass constructor body
assigns foreignKey and localKey. -/
theorem hasMany_construction_constraint_uses_undefined_keys :
    (HasManyRel.construct ⟨"posts", [], 0⟩
        (Model.mk [("id", Value.vInt 1)] []) "user_id" "id").query.wheres
      = [⟨Value.vUndef, "=", Value.vUndef, "and"⟩]
    ∧ (⟨Value.vUndef, "=", Value.vUndef, "and"⟩ : WhereClause)
        ≠ ⟨Value.vStr "user_id", "=", Value.vInt 1, "and"⟩ := by
  constructor
  · rfl
  · decide

/-- C3: HasMany.match and HasOne.match associate a result with a parent
exactly when the stringified value of the foreign key of the result equals
the stringified value of the local key of the parent; in particular the
integer 1 and the string 1 normalize identically. -/
theorem relation_match_key_normalization_stringifies
    (hm : HasManyRel) (ho : HasOneRel) (model res : Model)
    (results : List Model) (relation : String) :
    (res ∈ attachedMany hm model results relation ↔
       res ∈ results ∧
         jsString (res.getAttribute hm.foreignKey)
           = jsString (model.getAttribute hm.localKey))
    ∧ attachedOne ho model results relation
        = (results.filter (fun r2 =>
            jsString (r2.getAttribute ho.foreignKey)
              == jsString (model.getAttribute ho.localKey))).getLast?
    ∧ jsString (Value.vInt 1) = jsString (Value.vStr "1") := by
  refine ⟨?_, ?_, rfl⟩
  · rw [attachedMany_eq]
    simp [List.mem_filter, normalizeKey]
  · rw [attachedOne_eq]
    rfl

/-- C4: BelongsToMany.match returns the parent models without attaching any
related results: the pivot-data matching step is a stub, so no relation
cache entry is written by a many-to-many eager-load match. -/
theorem belongsToMany_match_attaches_nothing
    (r : BelongsToManyRel) (models results : List Model) (relation : String) :
    r.matchModels models results relation = models
    ∧ (r.matchModels models results relation).map (fun m => m.getRelation relation)
        = models.map (fun m => m.getRelation relation) :=
  ⟨rfl, rfl⟩

theorem objGet_foldl_objSet_notmem {α : Type} (l : List (String × α))
    (init : List (String × α)) (k : String)
    (h : ∀ p ∈ l, (p.1 == k) = false) :
    objGet (l.foldl (fun o p => objSet o p.1 p.2) init) k = objGet init k := by
  induction l generalizing init with
  | nil => rfl
  | cons p rest ih =>
      rw [List.foldl_cons, ih _ (fun q hq => h q (List.mem_cons_of_mem p hq))]
      rw [objGet_objSet]
      have hp := h p (List.mem_cons_self p rest)
      simp [hp]

/-- C5 counterexample: a populate result whose raw document already carries
an id key keeps that id, which differs from _id; and an aggregate result
whose _id is the number 0 (falsy) is left without any synthetic id even
though the raw document has an _id. -/
theorem mongo_id_mirror_counterexample :
    (¬ ∀ doc ∈ populateResults [[("_id", Value.vStr "a"), ("id", Value.vStr "b")]],
        objGet doc "id" = objGet doc "_id")
    ∧ (¬ ∀ doc ∈ aggregateResults [[("_id", Value.vInt 0)]],
        (objGet doc "_id").isSome → (objGet doc "id").isSome) := by
  decide

/-- C5 amended: every document returned by populate whose raw form does not
itself contain an id key carries a synthetic id equal in value to the
_id of the raw document, both fields present together; the same holds for
aggregate whenever the _id of the raw document is truthy. -/
theorem mongo_id_mirror_for_fresh_docs (doc : Doc) (h : objGet doc "id" = none) :
    objGet (populateMapDoc doc) "id" = some ((objGet doc "_id").getD Value.vUndef)
    ∧ objGet (populateMapDoc doc) "_id" = some ((objGet doc "_id").getD Value.vUndef)
    ∧ (truthy ((objGet doc "_id").getD Value.vUndef) = true →
        objGet (aggregateMapDoc doc) "id" = some ((objGet doc "_id").getD Value.vUndef)
        ∧ objGet (aggregateMapDoc doc) "_id" = some ((objGet doc "_id").getD Value.vUndef)) := by
  have hrest_id : ∀ p ∈ doc.filter (fun p => p.1 != "_id"), (p.1 == "id") = false := by
    intro p hp
    exact (objGet_eq_none_iff doc "id").1 h p (List.mem_of_mem_filter hp)
  have hrest_uid : ∀ p ∈ doc.filter (fun p => p.1 != "_id"), (p.1 == "_id") = false := by
    intro p hp
    have hf := List.of_mem_filter hp
    simpa using hf
  have h1 : objGet (remapDocId doc) "id" = some ((objGet doc "_id").getD Value.vUndef) := by
    unfold remapDocId
    dsimp only
    exact (objGet_foldl_objSet_notmem _ _ _ hrest_id).trans rfl
  have h2 : objGet (remapDocId doc) "_id" = some ((objGet doc "_id").getD Value.vUndef) := by
    unfold remapDocId
    dsimp only
    exact (objGet_foldl_objSet_notmem _ _ _ hrest_uid).trans rfl
  refine ⟨h1, h2, fun ht => ?_⟩
  unfold aggregateMapDoc
  rw [if_pos ht]
  exact ⟨h1, h2⟩

theorem mongo_id_mirror_for_fresh_docs_witness :
    objGet [("_id", Value.vStr "a"), ("name", Value.vStr "n")] "id" = none
    ∧ (objGet (populateMapDoc [("_id", Value.vStr "a"), ("name", Value.vStr "n")]) "id"
        = some ((objGet [("_id", Value.vStr "a"), ("name", Value.vStr "n")] "_id").getD Value.vUndef)
      ∧ objGet (populateMapDoc [("_id", Value.vStr "a"), ("name", Value.vStr "n")]) "_id"
        = some ((objGet [("_id", Value.vStr "a"), ("name", Value.vStr "n")] "_id").getD Value.vUndef)
      ∧ (truthy ((objGet [("_id", Value.vStr "a"), ("name", Value.vStr "n")] "_id").getD Value.vUndef) = true →
          objGet (aggregateMapDoc [("_id", Value.vStr "a"), ("name", Value.vStr "n")]) "id"
            = some ((objGet [("_id", Value.vStr "a"), ("name", Value.vStr "n")] "_id").getD Value.vUndef)
          ∧ objGet (aggregateMapDoc [("_id", Value.vStr "a"), ("name", Value.vStr "n")]) "_id"
            = some ((objGet [("_id", Value.vStr "a"), ("name", Value.vStr "n")] "_id").getD Value.vUndef))) :=
  ⟨by decide, mongo_id_mirror_for_fresh_docs [("_id", Value.vStr "a"), ("name", Value.vStr "n")] (by decide)⟩

/-- C6: with a database adapter configured, validateUnique parses the rule
parameter into table, column, ignore id and ignore column, builds a query
with the equality predicate column = value, adds the inequality predicate
ignoreColumn != ignoreId when an ignore id is given, and succeeds exactly
when count() returns zero; validateExists builds a query with the equality
predicate column = value and returns exists(). -/
theorem validator_db_rules_build_query_and_aggregate
    (a : ValidatorDb) (field : String) (value : Value)
    (param table column : String)
    (param2 table2 column2 ignoreId ignoreColumn : String)
    (h0 : splitComma param = [table, column]) (h : table ≠ "")
    (h02 : splitComma param2 = [table2, column2, ignoreId, ignoreColumn])
    (h2 : table2 ≠ "") (hig : ignoreId ≠ "") :
    validateUnique (some a) field value (Value.vStr param)
      = Except.ok (a.countFn table [⟨Value.vStr column, "=", value, "and"⟩] == 0)
    ∧ (validateUnique (some a) field value (Value.vStr param) = Except.ok true
        ↔ a.countFn table [⟨Value.vStr column, "=", value, "and"⟩] = 0)
    ∧ validateUnique (some a) field value (Value.vStr param2)
      = Except.ok (a.countFn table2
          [⟨Value.vStr column2, "=", value, "and"⟩,
           ⟨Value.vStr ignoreColumn, "!=", Value.vStr ignoreId, "and"⟩] == 0)
    ∧ validateExists (some a) field value (Value.vStr param)
      = Except.ok (a.existsFn table [⟨Value.vStr column, "=", value, "and"⟩]) := by
  refine ⟨?_, ?_, ?_, ?_⟩
  · simp [validateUnique, jsString, h0, h]
  · simp [validateUnique, jsString, h0, h]
  · simp [validateUnique, jsString, h02, h2, hig]
  · simp [validateExists, jsString, h0, h]

theorem validator_db_rules_build_query_and_aggregate_witness :
    splitComma "users,email" = ["users", "email"]
    ∧ "users" ≠ ""
    ∧ splitComma "users,email,5,id" = ["users", "email", "5", "id"]
    ∧ "5" ≠ ""
    ∧ (validateUnique (some (ValidatorDb.mk (fun _ _ => 0) (fun _ _ => true)))
          "email" (Value.vStr "x") (Value.vStr "users,email")
        = Except.ok ((ValidatorDb.mk (fun _ _ => 0) (fun _ _ => true)).countFn "users"
            [⟨Value.vStr "email", "=", Value.vStr "x", "and"⟩] == 0)
      ∧ (validateUnique (some (ValidatorDb.mk (fun _ _ => 0) (fun _ _ => true)))
            "email" (Value.vStr "x") (Value.vStr "users,email") = Except.ok true
          ↔ (ValidatorDb.mk (fun _ _ => 0) (fun _ _ => true)).countFn "users"
              [⟨Value.vStr "email", "=", Value.vStr "x", "and"⟩] = 0)
      ∧ validateUnique (some (ValidatorDb.mk (fun _ _ => 0) (fun _ _ => true)))
            "email" (Value.vStr "x") (Value.vStr "users,email,5,id")
        = Except.ok ((ValidatorDb.mk (fun _ _ => 0) (fun _ _ => true)).countFn "users"
            [⟨Value.vStr "email", "=", Value.vStr "x", "and"⟩,
             ⟨Value.vStr "id", "!=", Value.vStr "5", "and"⟩] == 0)
      ∧ validateExists (some (ValidatorDb.mk (fun _ _ => 0) (fun _ _ => true)))
            "email" (Value.vStr "x") (Value.vStr "users,email")
        = Except.ok ((ValidatorDb.mk (fun _ _ => 0) (fun _ _ => true)).existsFn "users"
            [⟨Value.vStr "email", "=", Value.vStr "x", "and"⟩])) :=
  ⟨by decide, by decide, by decide, by decide,
    validator_db_rules_build_query_and_aggregate
      (ValidatorDb.mk (fun _ _ => 0) (fun _ _ => true)) "email" (Value.vStr "x")
      "users,email" "users" "email" "users,email,5,id" "users" "email" "5" "id"
      (by decide) (by decide) (by decide) (by decide) (by decide)⟩

/-- C7: after QueryBuilder.macro(name, f), hasMacro(name) returns true and
f is installed as the method name on the prototype of the builder class, so
a subsequent builder.name(args) call invokes f with the builder instance as
its receiver, and through it the bound adapter of the builder. -/
theorem querybuilder_macro_installs_and_binds_receiver
    (s : MacroState) (name : String) (f : MacroFn) (b : QueryBuilder) (args : List Value) :
    macroDefined (macroInstall s "QueryBuilder" name f) "QueryBuilder" name = true
    ∧ macroInvokeOn (macroInstall s "QueryBuilder" name f) "QueryBuilder" b name args
        = some (f b args) := by
  constructor
  · simp [macroDefined, macroInstall, objGet_objSet]
  · simp [macroInvokeOn, macroInstall, objGet_objSet]

/-- C8: constructing the database adapter for a backend type other than
mysql, mongodb or postgres fails: DatabaseProvider.register throws an
Unsupported DB type error, the migrate CLI refuses every type other than
postgres and mysql (mongodb included), and no unknown type yields an
adapter. -/
theorem unsupported_backend_type_rejected (t : String)
    (h1 : t ≠ "mysql") (h2 : t ≠ "mongodb") (h3 : t ≠ "postgres") :
    databaseProviderAdapterFor t = Except.error ("Unsupported DB type " ++ t)
    ∧ migrateAdapterFor t = Except.error ("Unsupported database type: " ++ t)
    ∧ migrateAdapterFor "mongodb"
        = Except.error ("Unsupported database type: " ++ "mongodb") := by
  refine ⟨?_, ?_, rfl⟩
  · simp [databaseProviderAdapterFor, h1, h2, h3]
  · simp [migrateAdapterFor, h1, h3]

theorem unsupported_backend_type_rejected_witness :
    "sqlite" ≠ "mysql"
    ∧ "sqlite" ≠ "mongodb"
    ∧ "sqlite" ≠ "postgres"
    ∧ (databaseProviderAdapterFor "sqlite"
        = Except.error ("Unsupported DB type " ++ "sqlite")
      ∧ migrateAdapterFor "sqlite"
        = Except.error ("Unsupported database type: " ++ "sqlite")
      ∧ migrateAdapterFor "mongodb"
        = Except.error ("Unsupported database type: " ++ "mongodb")) :=
  ⟨by decide, by decide, by decide,
    unsupported_backend_type_rejected "sqlite" (by decide) (by decide) (by decide)⟩

/-- C9: the static macro registry of Macroable is shared across subclasses:
after A.macro(name, f), B.hasMacro(name) returns true for a different
subclass B, while the prototype of B is unchanged, f having been installed
only on the prototype of A. -/
theorem macro_registry_shared_across_subclasses
    (s : MacroState) (A B name : String) (f : MacroFn) (h : A ≠ B) :
    macroDefined (macroInstall s A name f) B name = true
    ∧ objGet (macroInstall s A name f).protos B = objGet s.protos B := by
  constructor
  · simp [macroDefined, macroInstall, objGet_objSet]
  · simp [macroInstall, objGet_objSet, h]

theorem macro_registry_shared_across_subclasses_witness :
    "QueryBuilder" ≠ "Collection"
    ∧ (macroDefined
          (macroInstall (MacroState.mk [] []) "QueryBuilder" "populate" (fun _ _ => Value.vNull))
          "Collection" "populate" = true
      ∧ objGet
          (macroInstall (MacroState.mk [] []) "QueryBuilder" "populate" (fun _ _ => Value.vNull)).protos
          "Collection"
        = objGet (MacroState.mk [] []).protos "Collection") :=
  ⟨by decide,
    macro_registry_shared_across_subclasses (MacroState.mk [] [])
      "QueryBuilder" "Collection" "populate" (fun _ _ => Value.vNull) (by decide)⟩

/-- C10: when the rule parameter of unique or exists has an empty table
part, validateUnique and validateExists return false for every adapter, so
the result does not depend on any adapter call and no query reaches the
database. -/
theorem validator_db_rules_missing_table_short_circuits
    (a : ValidatorDb) (field : String) (value : Value) (param : String)
    (h : ((splitComma param).get? 0).getD "" = "") :
    validateUnique (some a) field value (Value.vStr param) = Except.ok false
    ∧ validateExists (some a) field value (Value.vStr param) = Except.ok false := by
  have h2 : ((splitComma param)[0]?).getD "" = "" := by
    simpa using h
  constructor
  · simp [validateUnique, jsString, h2]
  · simp [validateExists, jsString, h2]

theorem validator_db_rules_missing_table_short_circuits_witness :
    ((splitComma "").get? 0).getD "" = ""
    ∧ (validateUnique (some (ValidatorDb.mk (fun _ _ => 7) (fun _ _ => true)))
          "email" (Value.vStr "x") (Value.vStr "") = Except.ok false
      ∧ validateExists (some (ValidatorDb.mk (fun _ _ => 7) (fun _ _ => true)))
          "email" (Value.vStr "x") (Value.vStr "") = Except.ok false) :=
  ⟨by decide,
    validator_db_rules_missing_table_short_circuits
      (ValidatorDb.mk (fun _ _ => 7) (fun _ _ => true)) "email" (Value.vStr "x") "" (by decide)⟩
